import Mathlib

/-!
Verification of the vscode-attack taxonomy ingestion and lookup engine.

JavaScript strings are modelled as `List Char`.  The string primitives used by
the source (`includes`, `replace` with a string pattern, `toUpperCase`,
`split('.')`, `localeCompare` with numeric collation) are embedded below;
the dataset normalizers (`init` of techniques / tactics / groups / software /
mitigations), the lookup engine (`doSearch` / `search`), and the cache
freshness orchestrator (`cacheData` with its helpers `getVersions`,
`getLatestCacheVersion`, `extractAttackVersion`, `downloadAttackMap`) are
embedded as executable functions over explicit state.
-/

namespace VsAttack

/-- `s.indexOf(pat)` on JavaScript strings: position of the first occurrence
of `pat` in `s`, `none` when there is no occurrence.  The empty pattern
occurs at position 0, as in JavaScript. -/
def findSub (pat : List Char) : List Char → Option Nat
  | [] => if pat.isPrefixOf ([] : List Char) then some 0 else none
  | c :: t => if pat.isPrefixOf (c :: t) then some 0 else (findSub pat t).map (· + 1)

/-- `s.includes(pat)` on JavaScript strings. -/
def jsIncludes (s pat : List Char) : Bool := (findSub pat s).isSome

/-- `s.replace(pat, rep)` with a string pattern: replaces only the first
occurrence, returns `s` unchanged when the pattern does not occur. -/
def replaceFirst (s pat rep : List Char) : List Char :=
  match findSub pat s with
  | none => s
  | some i => s.take i ++ rep ++ s.drop (i + pat.length)

/-- `s.toUpperCase()` (ASCII range, which covers every string the source
compares this way). -/
def jsToUpper (s : List Char) : List Char := s.map Char.toUpper

/-- Numeric value of a digit string, as read left to right. -/
def natOfDigits (s : List Char) : Nat := s.foldl (fun n c => n * 10 + (c.toNat - 48)) 0

theorem length_dropWhile_le (p : Char → Bool) (l : List Char) :
    (l.dropWhile p).length ≤ l.length := by
  induction l with
  | nil => simp [List.dropWhile]
  | cons z zs ih =>
    simp only [List.dropWhile_cons]
    cases hz : p z
    · simp
    · simpa using Nat.le_succ_of_le ih

/-- The recursion of `versionSorter`, written with an explicit fuel so that
it is structural (and so reduces inside the kernel).  Every recursive call
shortens the first string, so any fuel above its length gives the intended
value; the fuel-exhausted answer 0 is never reached from `vcmp`. -/
def vcmpF : Nat → List Char → List Char → Int
  | 0, _, _ => 0
  | _ + 1, [], [] => 0
  | _ + 1, [], _ :: _ => -1
  | _ + 1, _ :: _, [] => 1
  | f + 1, x :: xs, y :: ys =>
    if x.isDigit && y.isDigit then
      let a := natOfDigits ((x :: xs).takeWhile Char.isDigit)
      let b := natOfDigits ((y :: ys).takeWhile Char.isDigit)
      if a < b then -1
      else if b < a then 1
      else vcmpF f ((x :: xs).dropWhile Char.isDigit) ((y :: ys).dropWhile Char.isDigit)
    else if x = y then vcmpF f xs ys
    else if x.val < y.val then -1 else 1

/-- `versionSorter` from helpers.ts: `a.localeCompare(b, undefined, (numeric))`.
Maximal digit runs are compared as numbers; other characters by code point.
Negative means `a` sorts before `b`. -/
def vcmp (a b : List Char) : Int := vcmpF (a.length + 1) a b

/-- One entry of a raw record's `external_references` list. -/
structure ExternalReference where
  source_name : List Char
  external_id : List Char
  url : List Char
deriving DecidableEq

/-- One entry of a technique's `kill_chain_phases` list. -/
structure KillChainPhase where
  kill_chain_name : List Char
  phase_name : List Char
deriving DecidableEq

/-- A raw record of the downloaded dataset (`AttackObject` in interfaces.d.ts);
optional JSON fields are `Option`s. -/
structure AttackObject where
  type : List Char
  name : List Char
  description : Option (List Char) := none
  revoked : Option Bool := none
  x_mitre_deprecated : Option Bool := none
  x_mitre_is_subtechnique : Option Bool := none
  aliases : Option (List (List Char)) := none
  x_mitre_aliases : Option (List (List Char)) := none
  external_references : Option (List ExternalReference) := none
  kill_chain_phases : Option (List KillChainPhase) := none
deriving DecidableEq

/-- The parsed dataset: `(objects: AttackObject[])`. -/
structure AttackMap where
  objects : List AttackObject
deriving DecidableEq

def unknownS : List Char := "<unknown>".toList

def mitreTag : List Char := "mitre-attack".toList

/-- The `external_references?.forEach` loop shared by all five `init`
functions: each reference whose `source_name` is `mitre-attack` assigns
`id` and `url`.  The `return` inside the JavaScript `forEach` callback only
ends that callback, it does not stop the iteration, so a later matching
reference overwrites an earlier one. -/
def resolveRef (refs : Option (List ExternalReference)) : List Char × List Char :=
  (refs.getD []).foldl
    (fun acc r => if r.source_name = mitreTag then (r.external_id, r.url) else acc)
    (unknownS, unknownS)

/-- `description !== undefined ? description : 'No description available.'` -/
def descOf (d : Option (List Char)) : List Char :=
  d.getD ("No description available.".toList)

/-- `description.split("\n")[0]` — the first line. -/
def firstLine (s : List Char) : List Char := s.takeWhile (· ≠ '\n')

/-- A normalized technique.  The `parent` weak reference is modelled as the
index (`parentIdx`) of the referenced technique in the same collection;
`undefined` is `none`. -/
structure Technique where
  id : List Char
  name : List Char
  descShort : List Char
  descLong : List Char
  revoked : Option Bool
  deprecated : Option Bool
  subtechnique : Option Bool
  tactics : Option (List (List Char))
  url : List Char
  parentIdx : Option Nat
deriving DecidableEq

/-- A normalized mitigation (tactics and the first pass of groups/software
share this shape; groups/software add aliases). -/
structure Mitigation where
  id : List Char
  name : List Char
  descShort : List Char
  descLong : List Char
  url : List Char
deriving DecidableEq

/-- A normalized group or software entity. -/
structure AliasedEntity where
  id : List Char
  name : List Char
  descShort : List Char
  descLong : List Char
  aliases : Option (List (List Char))
  url : List Char
deriving DecidableEq

/-- First pass of techniques.ts `init`: filter raw records by
`type === 'attack-pattern'` and map each to a `Technique` (parent unset). -/
def techniquesPass1 (m : AttackMap) : List Technique :=
  (m.objects.filter (fun o => o.type = "attack-pattern".toList)).map (fun item =>
    let d := descOf item.description
    let iu := resolveRef item.external_references
    { id := iu.1
      name := item.name
      descShort := firstLine d
      descLong := d
      revoked := item.revoked
      deprecated := item.x_mitre_deprecated
      subtechnique := item.x_mitre_is_subtechnique
      tactics := (item.kill_chain_phases.map (fun ps =>
        (ps.filter (fun p => p.kill_chain_name = mitreTag)).map (·.phase_name)))
      url := iu.2
      parentIdx := none })

/-- `technique.id.split('.').shift()` — everything before the first `'.'`
(the whole id when it has no `'.'`). -/
def parentTID (id : List Char) : List Char := id.takeWhile (· ≠ '.')

/-- The body of the second pass of techniques.ts `init`: for a technique
whose `subtechnique` flag is truthy, look up the first technique of the
collection whose id equals `id.split('.').shift()` and store the reference
(as an index); leave the technique untouched when the lookup fails or the
flag is not set. -/
def assignParent (ts : List Technique) (t : Technique) : Technique :=
  if t.subtechnique = some true then
    match ts.findIdx? (fun p => p.id = parentTID t.id) with
    | some i => { t with parentIdx := some i }
    | none => t
  else t

/-- techniques.ts `init`: the first pass followed by the parent-linking
second pass over the same collection. -/
def techniquesInit (m : AttackMap) : List Technique :=
  let ts := techniquesPass1 m
  ts.map (assignParent ts)

/-- tactics.ts `init`: filter by `type === 'x-mitre-tactic'`, same mapping. -/
def tacticsInit (m : AttackMap) : List Mitigation :=
  (m.objects.filter (fun o => o.type = "x-mitre-tactic".toList)).map (fun item =>
    let d := descOf item.description
    let iu := resolveRef item.external_references
    { id := iu.1, name := item.name, descShort := firstLine d, descLong := d, url := iu.2 })

/-- groups.ts `init`: filter by `type === 'intrusion-set'`;
`aliases !== undefined ? aliases : []`. -/
def groupsInit (m : AttackMap) : List AliasedEntity :=
  (m.objects.filter (fun o => o.type = "intrusion-set".toList)).map (fun item =>
    let d := descOf item.description
    let iu := resolveRef item.external_references
    { id := iu.1, name := item.name, descShort := firstLine d, descLong := d
      aliases := some (item.aliases.getD []), url := iu.2 })

/-- software.ts `init`: filter by `type === 'malware' || type === 'tool'`;
note the source tests `x_mitre_aliases !== undefined` but then reads
`item.aliases`, so `aliases` can end up `undefined`. -/
def softwareInit (m : AttackMap) : List AliasedEntity :=
  (m.objects.filter (fun o => o.type = "malware".toList || o.type = "tool".toList)).map
    (fun item =>
      let d := descOf item.description
      let iu := resolveRef item.external_references
      { id := iu.1, name := item.name, descShort := firstLine d, descLong := d
        aliases := if item.x_mitre_aliases ≠ none then item.aliases else some []
        url := iu.2 })

/-- `mitigationRegex = /M\d{4}/` — `s.match` succeeds when some position
starts `'M'` followed by four digits. -/
def mitMatch : List Char → Bool
  | [] => false
  | c :: rest =>
    (c = 'M' && (match rest with
      | a :: b :: d :: e :: _ => a.isDigit && b.isDigit && d.isDigit && e.isDigit
      | _ => false)) || mitMatch rest

/-- mitigations.ts `init`: filter by `type === 'course-of-action'`, map, then
drop every mitigation whose `id` does not match `mitigationRegex`. -/
def mitigationsInit (m : AttackMap) : List Mitigation :=
  ((m.objects.filter (fun o => o.type = "course-of-action".toList)).map (fun item =>
    let d := descOf item.description
    let iu := resolveRef item.external_references
    ({ id := iu.1, name := item.name, descShort := firstLine d, descLong := d
       url := iu.2 } : Mitigation))).filter (fun mit => mitMatch mit.id)

/-- helpers.ts `getCurrentTechniques`: `technique.revoked !== true`. -/
def getCurrentTechniques (ts : List Technique) : List Technique :=
  ts.filter (fun t => t.revoked ≠ some true)

/-- helpers.ts `getRevokedTechniques`: `technique.revoked === true`. -/
def getRevokedTechniques (ts : List Technique) : List Technique :=
  ts.filter (fun t => t.revoked = some true)

/-- helpers.ts `minTermLength`. -/
def minTermLength : Nat := 5

/-- search.ts `doSearch`, first tier: revoked techniques whose id equals the
input case-insensitively. -/
def tierRevoked (input : List Char) (ts : List Technique) : List Technique :=
  (getRevokedTechniques ts).filter (fun t => jsToUpper t.id = jsToUpper input)

/-- search.ts `doSearch`, second tier: current techniques whose id equals the
input case-insensitively or whose name contains it case-insensitively. -/
def tierNameId (input : List Char) (ts : List Technique) : List Technique :=
  (getCurrentTechniques ts).filter (fun t =>
    jsToUpper t.id = jsToUpper input || jsIncludes (jsToUpper t.name) (jsToUpper input))

/-- search.ts `doSearch`, third tier: current techniques whose long
description contains the input (case-sensitively). -/
def tierDesc (input : List Char) (ts : List Technique) : List Technique :=
  (getCurrentTechniques ts).filter (fun t => jsIncludes t.descLong input)

/-- search.ts `doSearch`: empty input short-circuits; each later tier runs
only when every earlier tier produced nothing. -/
def doSearch (input : List Char) (ts : List Technique) : List Technique :=
  if input.length = 0 then []
  else
    let r1 := tierRevoked input ts
    if r1 ≠ [] then r1
    else
      let r2 := tierNameId input ts
      if r2 ≠ [] then r2
      else tierDesc input ts

/-- search.ts `search` (the command entry point), with its two editor
interactions made explicit: `input` is the input-box result (`none` when the
user cancelled the prompt) and `confirmed` tells whether the user answered
`Ok` to the are-you-sure dialog shown for short terms.  Returns the list of
techniques handed to the results panel (empty when no panel is opened). -/
def searchCommand (input : Option (List Char)) (confirmed : Bool)
    (ts : List Technique) : List Technique :=
  match input with
  | none => []
  | some q =>
    if q.length = 0 then []
    else if q.length < minTermLength then
      if confirmed then doSearch q ts else []
    else doSearch q ts

/-- One entry of the extension's global-storage directory. -/
structure FileEntry where
  name : List Char
  content : List Char
  mtime : Nat
  isFile : Bool
deriving DecidableEq

/-- `/enterprise-attack\.[0-9\.]+\.json/` matching anywhere in a filename. -/
def digitDot (c : Char) : Bool := c.isDigit || c = '.'

def matchesMid (s : List Char) : Bool :=
  (List.range (s.length + 1)).any (fun k =>
    decide (1 ≤ k) && (s.take k).all digitDot && ".json".toList.isPrefixOf (s.drop k))

def matchesCachePattern (s : List Char) : Bool :=
  (List.range (s.length + 1)).any (fun i =>
    "enterprise-attack.".toList.isPrefixOf (s.drop i) && matchesMid (s.drop (i + 18)))

/-- Stable insertion used to model `Array.prototype.sort(versionSorter)`:
`x` is placed after every element strictly below it, so elements that
compare equal keep their original relative order, as the engine's stable
sort does. -/
def insertByName (x : FileEntry) : List FileEntry → List FileEntry
  | [] => [x]
  | y :: ys => if vcmp y.name x.name < 0 then y :: insertByName x ys else x :: y :: ys

def sortByName : List FileEntry → List FileEntry
  | [] => []
  | x :: xs => insertByName x (sortByName xs)

/-- helpers.ts `getLatestCacheVersion`: keep the directory's files whose name
matches the cache pattern, sort them with `versionSorter`, return the last
(`pop()`), or `undefined` when none match. -/
def getLatestCacheVersion (cache : List FileEntry) : Option FileEntry :=
  (sortByName (cache.filter (fun e => e.isFile && matchesCachePattern e.name))).getLast?

/-- helpers.ts `extractAttackVersion`:
`basename.replace('enterprise-attack.', '').replace('.json', '')`. -/
def extractAttackVersion (name : List Char) : List Char :=
  replaceFirst (replaceFirst name ("enterprise-attack.".toList) []) (".json".toList) []

/-- Stable insertion sort of version tokens with `versionSorter`. -/
def insertVersion (x : List Char) : List (List Char) → List (List Char)
  | [] => [x]
  | y :: ys => if vcmp y x < 0 then y :: insertVersion x ys else x :: y :: ys

def sortVersions : List (List Char) → List (List Char)
  | [] => []
  | x :: xs => insertVersion x (sortVersions xs)

/-- `availableVersions.sort(versionSorter)[availableVersions.length - 1]`
wrapped in a template string: indexing an empty array gives `undefined`,
which the template renders as the string `"undefined"`. -/
def onlineOf (vs : List (List Char)) : List Char :=
  match (sortVersions vs).getLast? with
  | none => "undefined".toList
  | some v => v

/-- `vscode.workspace.fs.writeFile`: overwrite the entry with this name, or
append a new file entry, stamping the write time. -/
def writeFileEntry (cache : List FileEntry) (name content : List Char)
    (now : Nat) : List FileEntry :=
  if cache.any (fun e => e.name = name) then
    cache.map (fun e =>
      if e.name = name then { e with content := content, mtime := now, isFile := true } else e)
  else cache ++ [{ name := name, content := content, mtime := now, isFile := true }]

/-- `vscode.workspace.fs.readFile` by name. -/
def readFileM (cache : List FileEntry) (name : List Char) : Option (List Char) :=
  (cache.find? (fun e => decide (e.name = name))).map (·.content)

/-- The environment a `cacheData` run interacts with: the one registry
answer `getVersions` resolves to (or its rejection), the dataset body served
for each version, `JSON.parse` outcomes, and the write timestamp. -/
structure CacheEnv where
  registry : Except Unit (List (List Char))
  download : List Char → Except Unit (List Char)
  parse : List Char → Option AttackMap
  now : Nat

/-- helpers.ts `downloadAttackMap`, assuming its own inner `getVersions`
resolves to the same list `vs` the caller got: when `version` is in the tag
list, download the body, persist it under `enterprise-attack.<version>.json`
and resolve the body; otherwise resolve the empty string without writing.
A download failure rejects.  Returns the outcome and the updated storage. -/
def downloadAttackMapM (env : CacheEnv) (cache : List FileEntry)
    (vs : List (List Char)) (version : List Char) :
    Except Unit (List Char) × List FileEntry :=
  if version ∈ vs then
    match env.download version with
    | .error _ => (.error (), cache)
    | .ok data =>
      (.ok data,
       writeFileEntry cache ("enterprise-attack.".toList ++ version ++ ".json".toList)
         data env.now)
  else (.ok [], cache)

/-- extension.ts `cacheData` (the freshness orchestrator), state-passing.
`.ok none` is resolving `undefined`, `.error ()` is a rejected promise.
Every branch mirrors the source: no cached file → `downloadLatestAttackMap`
(which swallows its own failures); cached file present → compare the
extracted cached version against the newest online version with
`versionSorter`, download when the online one is newer and otherwise re-read
the cache; any failure inside the try-block falls back to reading the
cached file. -/
def cacheDataM (env : CacheEnv) (cache : List FileEntry) :
    Except Unit (Option AttackMap) × List FileEntry :=
  match getLatestCacheVersion cache with
  | none =>
    -- downloadLatestAttackMap: all errors are caught and logged
    (match env.registry with
     | .error _ => (.ok none, cache)
     | .ok vs =>
       match downloadAttackMapM env cache vs (onlineOf vs) with
       | (.error _, c') => (.ok none, c')
       | (.ok data, c') =>
         match env.parse data with
         | none => (.ok none, c')
         | some m => (.ok (some m), c'))
  | some e =>
    let cachedVersion := extractAttackVersion e.name
    let fallback : List FileEntry → Except Unit (Option AttackMap) × List FileEntry :=
      fun c' =>
        match readFileM c' e.name with
        | none => (.error (), c')
        | some raw =>
          match env.parse raw with
          | none => (.error (), c')
          | some m => (.ok (some m), c')
    match env.registry with
    | .error _ => fallback cache
    | .ok vs =>
      let onlineVersion := onlineOf vs
      if vcmp cachedVersion onlineVersion < 0 then
        match downloadAttackMapM env cache vs onlineVersion with
        | (.error _, c') => fallback c'
        | (.ok data, c') =>
          match env.parse data with
          | none => fallback c'
          | some m => (.ok (some m), c')
      else
        match readFileM cache e.name with
        | none => fallback cache
        | some raw =>
          match env.parse raw with
          | none => fallback cache
          | some m => (.ok (some m), cache)

/-! ### Membership lemmas for the search tiers -/

theorem mem_tierRevoked {q : List Char} {ts : List Technique} {t : Technique}
    (h : t ∈ tierRevoked q ts) :
    t ∈ ts ∧ t.revoked = some true ∧ jsToUpper t.id = jsToUpper q := by
  have h1 := List.mem_filter.mp h
  have h2 := List.mem_filter.mp h1.1
  refine ⟨h2.1, by simpa using h2.2, by simpa using h1.2⟩

theorem mem_tierNameId {q : List Char} {ts : List Technique} {t : Technique}
    (h : t ∈ tierNameId q ts) : t ∈ ts ∧ t.revoked ≠ some true := by
  have h1 := List.mem_filter.mp h
  have h2 := List.mem_filter.mp h1.1
  exact ⟨h2.1, by simpa using h2.2⟩

theorem mem_tierDesc {q : List Char} {ts : List Technique} {t : Technique}
    (h : t ∈ tierDesc q ts) : t ∈ ts ∧ t.revoked ≠ some true := by
  have h1 := List.mem_filter.mp h
  have h2 := List.mem_filter.mp h1.1
  exact ⟨h2.1, by simpa using h2.2⟩

theorem mem_doSearch_cases {q : List Char} {ts : List Technique} {t : Technique}
    (h : t ∈ doSearch q ts) :
    q.length ≠ 0 ∧
      (t ∈ tierRevoked q ts ∨ (t ∈ ts ∧ t.revoked ≠ some true)) := by
  unfold doSearch at h
  by_cases h0 : q.length = 0
  · rw [if_pos h0] at h; cases h
  · rw [if_neg h0] at h
    refine ⟨h0, ?_⟩
    by_cases h1 : tierRevoked q ts ≠ []
    · rw [if_pos h1] at h; exact Or.inl h
    · rw [if_neg h1] at h
      by_cases h2 : tierNameId q ts ≠ []
      · rw [if_pos h2] at h; exact Or.inr (mem_tierNameId h)
      · rw [if_neg h2] at h; exact Or.inr (mem_tierDesc h)

/-! ### Sample entities used to instantiate the claims -/

/-- A revoked technique. -/
def tRev : Technique :=
  { id := "T1059".toList, name := "RevTech".toList
    descShort := "r".toList, descLong := "r".toList
    revoked := some true, deprecated := none, subtechnique := none
    tactics := none, url := unknownS, parentIdx := none }

/-- A deprecated (but not revoked) technique — retired per the spec's
glossary, yet in `getCurrentTechniques` per the code. -/
def tDep : Technique :=
  { id := "T9999".toList, name := "AAAAA".toList
    descShort := "d".toList, descLong := "d".toList
    revoked := some false, deprecated := some true, subtechnique := none
    tactics := none, url := unknownS, parentIdx := none }

/-- An active technique whose long description contains the word `the`. -/
def tThe : Technique :=
  { id := "T0001".toList, name := "XYZ".toList
    descShort := "within the shadows".toList, descLong := "within the shadows".toList
    revoked := none, deprecated := none, subtechnique := none
    tactics := none, url := unknownS, parentIdx := none }

/-! ### C3 — retired (revoked or deprecated) techniques in `doSearch` -/

/-- C3 counterexample: `tDep` is marked deprecated (hence retired per the
spec's glossary), the query `AAAAA` is not its identifier, and yet
`doSearch` returns it through the name-containment tier — the code's
retired tier keys on `revoked === true` only. -/
theorem claim3_counterexample :
    doSearch ("AAAAA".toList) [tDep] = [tDep] ∧
      tDep.deprecated = some true ∧ tDep.revoked ≠ some true ∧
      jsToUpper tDep.id ≠ jsToUpper ("AAAAA".toList) := by
  refine ⟨by decide, by decide, by decide, by decide⟩

/-- C3 (amended): only techniques with `revoked === true` are restricted to
exact case-insensitive identifier lookup; such a technique is in the result
exactly when the query matches its id, and it is never produced by the
name-containment or description tiers. -/
theorem claim3_amended :
    (∀ (q : List Char) (ts : List Technique) (t : Technique),
       t ∈ doSearch q ts → t.revoked = some true → jsToUpper t.id = jsToUpper q) ∧
    (∀ (q : List Char) (ts : List Technique) (t : Technique),
       t ∈ ts → t.revoked = some true → jsToUpper t.id = jsToUpper q →
       q.length ≠ 0 → t ∈ doSearch q ts) := by
  constructor
  · intro q ts t h hrev
    rcases (mem_doSearch_cases h).2 with h1 | h1
    · exact (mem_tierRevoked h1).2.2
    · exact absurd hrev h1.2
  · intro q ts t hmem hrev hid h0
    have hr : t ∈ tierRevoked q ts := by
      refine List.mem_filter.mpr ⟨List.mem_filter.mpr ⟨hmem, by simpa using hrev⟩, ?_⟩
      simpa using hid
    have hne : tierRevoked q ts ≠ [] := by
      intro hnil; rw [hnil] at hr; cases hr
    unfold doSearch
    rw [if_neg h0, if_pos hne]
    exact hr

/-- C3 witness: the amended theorem applied to the revoked sample technique
and its exact identifier. -/
theorem claim3_witness : tRev ∈ doSearch ("t1059".toList) [tRev] :=
  claim3_amended.2 ("t1059".toList) [tRev] tRev (by decide) (by decide)
    (by decide) (by decide)

/-! ### C9 — result homogeneity with respect to revocation -/

/-- C9: a `doSearch` result never mixes revoked and non-revoked techniques:
the first tier filters the revoked subset, the later tiers filter the
non-revoked subset, and exactly one tier's output is returned. -/
theorem claim9_homogeneous :
    ∀ (q : List Char) (ts : List Technique) (a b : Technique),
      a ∈ doSearch q ts → b ∈ doSearch q ts →
      (a.revoked = some true ↔ b.revoked = some true) := by
  intro q ts a b ha hb
  unfold doSearch at ha hb
  by_cases h0 : q.length = 0
  · rw [if_pos h0] at ha; cases ha
  · rw [if_neg h0] at ha hb
    by_cases h1 : tierRevoked q ts ≠ []
    · rw [if_pos h1] at ha hb
      exact iff_of_true (mem_tierRevoked ha).2.1 (mem_tierRevoked hb).2.1
    · rw [if_neg h1] at ha hb
      by_cases h2 : tierNameId q ts ≠ []
      · rw [if_pos h2] at ha hb
        exact iff_of_false (mem_tierNameId ha).2 (mem_tierNameId hb).2
      · rw [if_neg h2] at ha hb
        exact iff_of_false (mem_tierDesc ha).2 (mem_tierDesc hb).2

/-- C9 witness: the homogeneity theorem applied to a concrete singleton
result. -/
theorem claim9_witness : tRev.revoked = some true ↔ tRev.revoked = some true :=
  claim9_homogeneous ("T1059".toList) [tRev] tRev tRev (by decide) (by decide)

/-! ### C5 — length gate in front of the description tier -/

/-- C5 counterexample: when the user confirms the are-you-sure dialog, the
3-character query `the` does reach `doSearch`, whose description tier has no
length gate of its own: the technique `tThe` is returned purely by
description containment. -/
theorem claim5_counterexample :
    searchCommand (some ("the".toList)) true [tThe] = [tThe] ∧
      ("the".toList).length = 3 ∧
      tierRevoked ("the".toList) [tThe] = [] ∧
      tierNameId ("the".toList) [tThe] = [] ∧
      tierDesc ("the".toList) [tThe] = [tThe] := by
  refine ⟨by decide, by decide, by decide, by decide, by decide⟩

/-- C5 (amended): the description tier runs only when the earlier tiers
produced zero matches and either the query has at least `minTermLength` (5)
characters or the user explicitly confirmed a shorter query; an unconfirmed
short query — in particular `the` — returns an empty list without any
description scan. -/
theorem claim5_amended :
    (∀ ts, searchCommand (some ("the".toList)) false ts = []) ∧
    (∀ (q : List Char) (conf : Bool) (ts : List Technique),
       q.length < minTermLength → conf = false → searchCommand (some q) conf ts = []) ∧
    (∀ (q : List Char) (conf : Bool) (ts : List Technique),
       minTermLength ≤ q.length → searchCommand (some q) conf ts = doSearch q ts) ∧
    (∀ (q : List Char) (ts : List Technique),
       q.length ≠ 0 → tierRevoked q ts = [] → tierNameId q ts = [] →
       doSearch q ts = tierDesc q ts) ∧
    (∀ (q : List Char) (ts : List Technique),
       q.length ≠ 0 → tierRevoked q ts ≠ [] → doSearch q ts = tierRevoked q ts) := by
  refine ⟨?_, ?_, ?_, ?_, ?_⟩
  · intro ts
    simp [searchCommand, minTermLength]
  · intro q conf ts hlen hconf
    subst hconf
    by_cases h0 : q.length = 0
    · simp [searchCommand, h0]
    · simp [searchCommand, h0, hlen]
  · intro q conf ts hlen
    have h0 : ¬ q.length = 0 := by
      intro h; rw [h] at hlen; exact absurd hlen (by decide)
    have hnlt : ¬ q.length < minTermLength := Nat.not_lt.mpr hlen
    simp [searchCommand, h0, hnlt]
  · intro q ts h0 h1 h2
    unfold doSearch
    rw [if_neg h0, if_neg (by simp [h1]), if_neg (by simp [h2])]
  · intro q ts h0 h1
    unfold doSearch
    rw [if_neg h0, if_pos h1]

/-- C5 witness: the amended theorem's first part at the concrete collection
from the counterexample — unconfirmed, `the` finds nothing. -/
theorem claim5_witness : searchCommand (some ("the".toList)) false [tThe] = [] :=
  claim5_amended.1 [tThe]

/-! ### C4 — multiple `mitre-attack` external references -/

/-- A raw technique record carrying two external references whose
`source_name` is `mitre-attack`. -/
def recC4 : AttackObject :=
  { type := "attack-pattern".toList, name := "X".toList
    description := some ("d".toList)
    external_references := some
      [{ source_name := "mitre-attack".toList, external_id := "T1001".toList
         url := "u1".toList },
       { source_name := "mitre-attack".toList, external_id := "T1002".toList
         url := "u2".toList }] }

/-- C4: on a record with two canonical external references the normalizer
keeps the id and url of the LAST matching entry, not the first: the `return`
inside the JavaScript `forEach` callback does not stop the iteration, so the
second match overwrites the first — contrary to the claim (and to the
code's own `no need to iterate over the rest` comment). -/
theorem claim4_last_reference_wins :
    (techniquesInit { objects := [recC4] }).map Technique.id = ["T1002".toList] ∧
      (techniquesInit { objects := [recC4] }).map Technique.url = ["u2".toList] ∧
      resolveRef recC4.external_references = ("T1002".toList, "u2".toList) := by
  refine ⟨by decide, by decide, by decide⟩

/-! ### Lemmas about the technique passes -/

theorem assignParent_id (ts : List Technique) (t : Technique) :
    (assignParent ts t).id = t.id := by
  unfold assignParent
  by_cases h : t.subtechnique = some true
  · rw [if_pos h]
    cases hfi : ts.findIdx? (fun p => decide (p.id = parentTID t.id)) <;> rfl
  · rw [if_neg h]

theorem assignParent_url (ts : List Technique) (t : Technique) :
    (assignParent ts t).url = t.url := by
  unfold assignParent
  by_cases h : t.subtechnique = some true
  · rw [if_pos h]
    cases hfi : ts.findIdx? (fun p => decide (p.id = parentTID t.id)) <;> rfl
  · rw [if_neg h]

theorem assignParent_name (ts : List Technique) (t : Technique) :
    (assignParent ts t).name = t.name := by
  unfold assignParent
  by_cases h : t.subtechnique = some true
  · rw [if_pos h]
    cases hfi : ts.findIdx? (fun p => decide (p.id = parentTID t.id)) <;> rfl
  · rw [if_neg h]

theorem assignParent_subtechnique (ts : List Technique) (t : Technique) :
    (assignParent ts t).subtechnique = t.subtechnique := by
  unfold assignParent
  by_cases h : t.subtechnique = some true
  · rw [if_pos h]
    cases hfi : ts.findIdx? (fun p => decide (p.id = parentTID t.id)) <;> rfl
  · rw [if_neg h]

theorem assignParent_parentIdx (ts : List Technique) (t : Technique)
    (h : t.subtechnique = some true) (h0 : t.parentIdx = none) :
    (assignParent ts t).parentIdx =
      ts.findIdx? (fun p => decide (p.id = parentTID t.id)) := by
  unfold assignParent
  rw [if_pos h]
  cases hfi : ts.findIdx? (fun p => decide (p.id = parentTID t.id))
  · exact h0
  · rfl

theorem assignParent_of_not_subtech (ts : List Technique) (t : Technique)
    (h : ¬ t.subtechnique = some true) : assignParent ts t = t := by
  unfold assignParent
  rw [if_neg h]

theorem pass1_parentIdx_none (m : AttackMap) :
    ∀ t ∈ techniquesPass1 m, t.parentIdx = none := by
  intro t ht
  unfold techniquesPass1 at ht
  rcases List.mem_map.mp ht with ⟨o, _, rfl⟩
  rfl

theorem techniquesInit_eq_map (m : AttackMap) :
    techniquesInit m = (techniquesPass1 m).map (assignParent (techniquesPass1 m)) := rfl

theorem findIdx?_techniquesInit (m : AttackMap) (x : List Char) :
    (techniquesInit m).findIdx? (fun p => decide (p.id = x)) =
      (techniquesPass1 m).findIdx? (fun p => decide (p.id = x)) := by
  rw [techniquesInit_eq_map, List.findIdx?_map]
  congr 1
  funext p
  simp [Function.comp, assignParent_id]

/-! ### C6 — parent derivation for sub-techniques -/

/-- The parent record `T1059`. -/
def recT1059 : AttackObject :=
  { type := "attack-pattern".toList
    name := "Command and Scripting Interpreter".toList
    description := some ("d1".toList)
    external_references := some
      [{ source_name := "mitre-attack".toList, external_id := "T1059".toList
         url := "u1".toList }] }

/-- A sub-technique whose id uses the `'.'` separator. -/
def recDot : AttackObject :=
  { type := "attack-pattern".toList, name := "PowerShell".toList
    description := some ("d2".toList)
    x_mitre_is_subtechnique := some true
    external_references := some
      [{ source_name := "mitre-attack".toList, external_id := "T1059.001".toList
         url := "u2".toList }] }

/-- A sub-technique whose id uses the `'/'` separator. -/
def recSlash : AttackObject :=
  { type := "attack-pattern".toList, name := "PowerShell".toList
    description := some ("d2".toList)
    x_mitre_is_subtechnique := some true
    external_references := some
      [{ source_name := "mitre-attack".toList, external_id := "T1059/001".toList
         url := "u2".toList }] }

def mapDot : AttackMap := { objects := [recT1059, recDot] }

def mapSlash : AttackMap := { objects := [recT1059, recSlash] }

/-- C6 counterexample: the code derives the parent id with `id.split('.')`
only, so the `'/'`-separated sub-technique id `T1059/001` is not truncated:
even though `T1059` is present (at index 0), the sub-technique's parent
reference resolves to index 1 — the sub-technique itself — not to the
`T1059` entity demanded by the claim. -/
theorem claim6_counterexample :
    (techniquesInit mapSlash).map (fun t => (t.id, t.parentIdx)) =
      [("T1059".toList, none), ("T1059/001".toList, some 1)] ∧
      (techniquesInit mapSlash).findIdx? (fun t => decide (t.id = "T1059".toList)) =
        some 0 := by
  refine ⟨by decide, by decide⟩

/-- C6 (amended): the parent identifier is derived by truncating the id at
the `'.'` separator only; the parent reference is the first technique of the
collection with that identifier when one exists and stays unset when none
does, and a non-sub-technique never gets a parent; concretely, `T1059.001`
resolves to the `T1059` entity. -/
theorem claim6_amended :
    (∀ (m : AttackMap) (i : Nat) (t : Technique), (techniquesInit m)[i]? = some t →
       (t.subtechnique = some true →
          t.parentIdx =
            (techniquesInit m).findIdx? (fun p => decide (p.id = parentTID t.id))) ∧
       (t.subtechnique ≠ some true → t.parentIdx = none)) ∧
    (∀ (m : AttackMap) (i : Nat) (t : Technique), (techniquesInit m)[i]? = some t →
       t.subtechnique = some true →
       (∀ p ∈ techniquesInit m, p.id ≠ parentTID t.id) → t.parentIdx = none) ∧
    ((techniquesInit mapDot).map (fun t => (t.id, t.parentIdx)) =
       [("T1059".toList, none), ("T1059.001".toList, some 0)]) := by
  have main : ∀ (m : AttackMap) (i : Nat) (t : Technique),
      (techniquesInit m)[i]? = some t →
      (t.subtechnique = some true →
         t.parentIdx =
           (techniquesInit m).findIdx? (fun p => decide (p.id = parentTID t.id))) ∧
      (t.subtechnique ≠ some true → t.parentIdx = none) := by
    intro m i t h
    rw [techniquesInit_eq_map, List.getElem?_map] at h
    cases hs : (techniquesPass1 m)[i]? with
    | none => rw [hs] at h; cases h
    | some s =>
      rw [hs] at h
      have hts : t = assignParent (techniquesPass1 m) s := by
        cases h; rfl
      have hsmem : s ∈ techniquesPass1 m := List.getElem?_mem hs
      have hs0 : s.parentIdx = none := pass1_parentIdx_none m s hsmem
      have hsub : t.subtechnique = s.subtechnique := by
        rw [hts, assignParent_subtechnique]
      constructor
      · intro ht
        have hssub : s.subtechnique = some true := by rw [← hsub]; exact ht
        have hid : parentTID t.id = parentTID s.id := by
          rw [hts, assignParent_id]
        have hpar : t.parentIdx =
            (techniquesPass1 m).findIdx? (fun p => decide (p.id = parentTID s.id)) := by
          rw [hts, assignParent_parentIdx _ _ hssub hs0]
        rw [findIdx?_techniquesInit, hid, hpar]
      · intro ht
        have hssub : ¬ s.subtechnique = some true := by rw [← hsub]; exact ht
        rw [hts, assignParent_of_not_subtech _ _ hssub]
        exact hs0
  refine ⟨main, ?_, by decide⟩
  intro m i t h hsub hnone
  rw [(main m i t h).1 hsub, List.findIdx?_eq_none_iff]
  intro p hp
  simpa using hnone p hp

/-- C6 witness: the amended theorem applied to the `'.'`-separated concrete
collection, at the sub-technique `T1059.001` (index 1). -/
theorem claim6_witness :
    ∃ t, (techniquesInit mapDot)[1]? = some t ∧ t.parentIdx = some 0 := by
  have h : (techniquesInit mapDot)[1]? =
      some ((techniquesInit mapDot).get ⟨1, by decide⟩) := by decide
  refine ⟨_, h, ?_⟩
  have h2 := (claim6_amended.1 mapDot 1 _ h).1 (by decide)
  rw [h2]
  decide

/-! ### C7 — entities with no canonical external reference -/

theorem resolveRef_noMatch (refs : Option (List ExternalReference))
    (h : ∀ r ∈ refs.getD [], r.source_name ≠ mitreTag) :
    resolveRef refs = (unknownS, unknownS) := by
  unfold resolveRef
  generalize hl : refs.getD [] = l
  rw [hl] at h
  clear hl
  suffices hgen : ∀ (l : List ExternalReference),
      (∀ r ∈ l, r.source_name ≠ mitreTag) →
      ∀ acc : List Char × List Char,
        l.foldl (fun acc r =>
          if r.source_name = mitreTag then (r.external_id, r.url) else acc) acc = acc by
    exact hgen l h _
  intro l
  induction l with
  | nil => intro _ acc; rfl
  | cons r rs ih =>
    intro hall acc
    rw [List.foldl_cons, if_neg (hall r (List.mem_cons_self r rs))]
    exact ih (fun x hx => hall x (List.mem_cons_of_mem r hx)) acc

/-- A course-of-action record with no `mitre-attack` external reference. -/
def recC7 : AttackObject :=
  { type := "course-of-action".toList, name := "Mit".toList
    description := some ("d".toList)
    external_references := some
      [{ source_name := "other-source".toList, external_id := "M9999".toList
         url := "u".toList }] }

/-- C7 counterexample: the mitigation normalizer post-filters by
`mitigationRegex`, so a course-of-action with no canonical reference — whose
id stays the `'<unknown>'` sentinel — is dropped from the output collection,
contradicting the claim for the mitigation kind. -/
theorem claim7_counterexample :
    mitigationsInit { objects := [recC7] } = [] ∧
      resolveRef recC7.external_references = (unknownS, unknownS) ∧
      mitMatch unknownS = false := by
  refine ⟨by decide, by decide, by decide⟩

/-- C7 (amended): a record with no canonical external reference still yields
an entity with `'<unknown>'` id and url, kept in the output collection, for
techniques, tactics, groups and software; mitigations are the exception:
every mitigation kept in the output has an id matching the mitigation
pattern, so sentinel-id mitigations are dropped. -/
theorem claim7_amended :
    (∀ (m : AttackMap) (i : Nat) (o : AttackObject),
       (m.objects.filter (fun x => decide (x.type = "attack-pattern".toList)))[i]? = some o →
       (∀ r ∈ o.external_references.getD [], r.source_name ≠ mitreTag) →
       ∃ t, (techniquesInit m)[i]? = some t ∧ t.id = unknownS ∧ t.url = unknownS ∧
         t.name = o.name) ∧
    (∀ (m : AttackMap) (i : Nat) (o : AttackObject),
       (m.objects.filter (fun x => decide (x.type = "x-mitre-tactic".toList)))[i]? = some o →
       (∀ r ∈ o.external_references.getD [], r.source_name ≠ mitreTag) →
       ∃ t, (tacticsInit m)[i]? = some t ∧ t.id = unknownS ∧ t.url = unknownS ∧
         t.name = o.name) ∧
    (∀ (m : AttackMap) (i : Nat) (o : AttackObject),
       (m.objects.filter (fun x => decide (x.type = "intrusion-set".toList)))[i]? = some o →
       (∀ r ∈ o.external_references.getD [], r.source_name ≠ mitreTag) →
       ∃ t, (groupsInit m)[i]? = some t ∧ t.id = unknownS ∧ t.url = unknownS ∧
         t.name = o.name) ∧
    (∀ (m : AttackMap) (i : Nat) (o : AttackObject),
       (m.objects.filter
         (fun x => x.type = "malware".toList || x.type = "tool".toList))[i]? = some o →
       (∀ r ∈ o.external_references.getD [], r.source_name ≠ mitreTag) →
       ∃ t, (softwareInit m)[i]? = some t ∧ t.id = unknownS ∧ t.url = unknownS ∧
         t.name = o.name) ∧
    (∀ (m : AttackMap) (t : Mitigation), t ∈ mitigationsInit m → mitMatch t.id = true) ∧
    (mitMatch unknownS = false) := by
  refine ⟨?_, ?_, ?_, ?_, ?_, by decide⟩
  · intro m i o h href
    rw [techniquesInit_eq_map, List.getElem?_map]
    unfold techniquesPass1
    rw [List.getElem?_map, h]
    refine ⟨_, rfl, ?_, ?_, ?_⟩
    · rw [assignParent_id]
      show (resolveRef o.external_references).1 = unknownS
      rw [resolveRef_noMatch _ href]
    · rw [assignParent_url]
      show (resolveRef o.external_references).2 = unknownS
      rw [resolveRef_noMatch _ href]
    · rw [assignParent_name]
  · intro m i o h href
    unfold tacticsInit
    rw [List.getElem?_map, h]
    refine ⟨_, rfl, ?_, ?_, rfl⟩
    · show (resolveRef o.external_references).1 = unknownS
      rw [resolveRef_noMatch _ href]
    · show (resolveRef o.external_references).2 = unknownS
      rw [resolveRef_noMatch _ href]
  · intro m i o h href
    unfold groupsInit
    rw [List.getElem?_map, h]
    refine ⟨_, rfl, ?_, ?_, rfl⟩
    · show (resolveRef o.external_references).1 = unknownS
      rw [resolveRef_noMatch _ href]
    · show (resolveRef o.external_references).2 = unknownS
      rw [resolveRef_noMatch _ href]
  · intro m i o h href
    unfold softwareInit
    rw [List.getElem?_map, h]
    refine ⟨_, rfl, ?_, ?_, rfl⟩
    · show (resolveRef o.external_references).1 = unknownS
      rw [resolveRef_noMatch _ href]
    · show (resolveRef o.external_references).2 = unknownS
      rw [resolveRef_noMatch _ href]
  · intro m t ht
    unfold mitigationsInit at ht
    exact (List.mem_filter.mp ht).2

/-- A technique record with no external references at all. -/
def recNoRef : AttackObject :=
  { type := "attack-pattern".toList, name := "NoRef".toList }

/-- C7 witness: the amended theorem's techniques part at a concrete record
with an empty reference list. -/
theorem claim7_witness :
    ∃ t, (techniquesInit { objects := [recNoRef] })[0]? = some t ∧
      t.id = unknownS ∧ t.url = unknownS ∧ t.name = "NoRef".toList :=
  claim7_amended.1 { objects := [recNoRef] } 0 recNoRef (by decide) (by decide)

/-! ### C10 — `extractAttackVersion` round-trips the fetcher's filenames -/

theorem findSub_of_pfx (p s : List Char) (h : p <+: s) : findSub p s = some 0 := by
  cases s with
  | nil =>
    have hp : p = [] := List.prefix_nil.mp h
    subst hp
    rfl
  | cons c t =>
    unfold findSub
    rw [if_pos (List.isPrefixOf_iff_prefix.mpr h)]

theorem replaceFirst_pfx (p rest : List Char) : replaceFirst (p ++ rest) p [] = rest := by
  unfold replaceFirst
  rw [findSub_of_pfx p _ (List.prefix_append p rest)]
  simp [List.drop_left]

theorem digitDot_ne_j {c : Char} (h : digitDot c = true) : c ≠ 'j' := by
  intro heq
  subst heq
  exact absurd h (by decide)

theorem not_dotjson_pfx (c : Char) (v' : List Char)
    (hv' : ∀ d ∈ v', digitDot d = true) :
    ¬ (".json".toList <+: c :: (v' ++ ".json".toList)) := by
  intro hpre
  have hsplit := List.cons_prefix_cons.mp hpre
  cases v' with
  | nil =>
    have h2 := List.cons_prefix_cons.mp hsplit.2
    exact absurd h2.1 (by decide)
  | cons d v'' =>
    have h2 := List.cons_prefix_cons.mp hsplit.2
    exact absurd h2.1.symm (digitDot_ne_j (hv' d (List.mem_cons_self d v'')))

theorem findSub_dotjson (v : List Char) (hv : ∀ d ∈ v, digitDot d = true) :
    findSub (".json".toList) (v ++ ".json".toList) = some v.length := by
  induction v with
  | nil => exact findSub_of_pfx _ _ (by simp)
  | cons c v' ih =>
    have hc : digitDot c = true := hv c (List.mem_cons_self c v')
    have hv' : ∀ d ∈ v', digitDot d = true :=
      fun d hd => hv d (List.mem_cons_of_mem c hd)
    show findSub (".json".toList) (c :: (v' ++ ".json".toList)) = some (v'.length + 1)
    unfold findSub
    rw [if_neg (by
      intro hb
      exact not_dotjson_pfx c v' hv' (List.isPrefixOf_iff_prefix.mp hb))]
    rw [ih hv']
    rfl

/-- C10: for every version token made only of digits and dots, extracting
the version from the cache filename written by the dataset fetcher
(`enterprise-attack.<version>.json`) returns exactly the version token:
the first `replace` strips the leading dataset prefix and the second strips
the trailing `.json`, whose first occurrence is the trailing one because the
token contains no letter. -/
theorem claim10_roundtrip (v : List Char) (hv : v.all digitDot = true) :
    extractAttackVersion ("enterprise-attack.".toList ++ v ++ ".json".toList) = v := by
  unfold extractAttackVersion
  rw [List.append_assoc, replaceFirst_pfx]
  unfold replaceFirst
  rw [findSub_dotjson v (List.all_eq_true.mp hv)]
  show List.take v.length (v ++ ".json".toList) ++ [] ++
      List.drop (v.length + (".json".toList).length) (v ++ ".json".toList) = v
  rw [List.take_left]
  rw [List.drop_append (".json".toList).length, List.drop_length]
  simp

/-- C10 witness: the round-trip applied to the token `8.0`. -/
theorem claim10_witness :
    extractAttackVersion ("enterprise-attack.".toList ++ "8.0".toList ++ ".json".toList) =
      "8.0".toList :=
  claim10_roundtrip ("8.0".toList) (by decide)


/-! ### Lemmas about the cache resolver -/

theorem mem_insertByName (x a : FileEntry) (l : List FileEntry) :
    a ∈ insertByName x l ↔ a = x ∨ a ∈ l := by
  induction l with
  | nil => simp [insertByName]
  | cons y ys ih =>
    unfold insertByName
    by_cases h : vcmp y.name x.name < 0
    · rw [if_pos h]
      simp only [List.mem_cons, ih]
      tauto
    · rw [if_neg h]
      simp only [List.mem_cons]

theorem mem_sortByName (a : FileEntry) (l : List FileEntry) :
    a ∈ sortByName l ↔ a ∈ l := by
  induction l with
  | nil => simp [sortByName]
  | cons y ys ih =>
    unfold sortByName
    rw [mem_insertByName]
    simp only [List.mem_cons, ih]

theorem length_insertByName (x : FileEntry) (l : List FileEntry) :
    (insertByName x l).length = l.length + 1 := by
  induction l with
  | nil => rfl
  | cons y ys ih =>
    unfold insertByName
    by_cases h : vcmp y.name x.name < 0
    · rw [if_pos h]
      simp [ih]
    · rw [if_neg h]
      simp

theorem sortByName_ne_nil {l : List FileEntry} (h : l ≠ []) : sortByName l ≠ [] := by
  cases l with
  | nil => exact absurd rfl h
  | cons y ys =>
    unfold sortByName
    intro hnil
    have hlen := length_insertByName y (sortByName ys)
    rw [hnil] at hlen
    cases hlen

theorem exists_getLast? {l : List FileEntry} (h : l ≠ []) :
    ∃ a, l.getLast? = some a ∧ a ∈ l := by
  induction l with
  | nil => exact absurd rfl h
  | cons y ys ih =>
    cases ys with
    | nil => exact ⟨y, rfl, List.mem_singleton.mpr rfl⟩
    | cons z zs =>
      obtain ⟨a, ha, hmem⟩ := ih (by simp)
      exact ⟨a, by rw [List.getLast?_cons_cons]; exact ha, List.mem_cons_of_mem y hmem⟩

theorem getLatest_spec (cache : List FileEntry) (e : FileEntry)
    (hm : e ∈ cache) (hf : e.isFile = true) (hp : matchesCachePattern e.name = true) :
    ∃ e2, getLatestCacheVersion cache = some e2 ∧ e2 ∈ cache ∧
      e2.isFile = true ∧ matchesCachePattern e2.name = true := by
  have hfil : e ∈ cache.filter (fun f => f.isFile && matchesCachePattern f.name) :=
    List.mem_filter.mpr ⟨hm, by rw [hf, hp]; rfl⟩
  have hne : cache.filter (fun f => f.isFile && matchesCachePattern f.name) ≠ [] := by
    intro hnil; rw [hnil] at hfil; cases hfil
  obtain ⟨e2, hlast, hmem⟩ := exists_getLast? (sortByName_ne_nil hne)
  have hmem2 := (mem_sortByName e2 _).mp hmem
  have hsplit := List.mem_filter.mp hmem2
  have hprops := Bool.and_eq_true_iff.mp hsplit.2
  exact ⟨e2, hlast, hsplit.1, hprops.1, hprops.2⟩

theorem find?_name_of_nodup (cache : List FileEntry) (e : FileEntry)
    (hnd : (cache.map FileEntry.name).Nodup) (hm : e ∈ cache) :
    cache.find? (fun f => decide (f.name = e.name)) = some e := by
  induction cache with
  | nil => cases hm
  | cons h t ih =>
    rw [List.map_cons, List.nodup_cons] at hnd
    rcases List.mem_cons.mp hm with rfl | hmt
    · rw [List.find?_cons, decide_eq_true rfl]
    · have hne : h.name ≠ e.name := by
        intro heq
        exact hnd.1 (heq ▸ List.mem_map.mpr ⟨e, hmt, rfl⟩)
      rw [List.find?_cons, decide_eq_false hne]
      exact ih hnd.2 hmt

theorem readFileM_of_nodup (cache : List FileEntry) (e : FileEntry)
    (hnd : (cache.map FileEntry.name).Nodup) (hm : e ∈ cache) :
    readFileM cache e.name = some e.content := by
  unfold readFileM
  rw [find?_name_of_nodup cache e hnd hm]
  rfl


/-! ### C1 — network failure falls back to the newest cached dataset -/

def sample80 : AttackMap := { objects := [recNoRef] }

def sampleEmpty : AttackMap := { objects := [] }

/-- Environment whose version-registry query rejects (network down). -/
def envC1 : CacheEnv :=
  { registry := .error ()
    download := fun _ => .ok []
    parse := fun c =>
      if c = "data72".toList then some sampleEmpty
      else if c = "data80".toList then some sample80 else none
    now := 9 }

def fe72 : FileEntry :=
  { name := "enterprise-attack.7.2.json".toList, content := "data72".toList
    mtime := 1, isFile := true }

def fe80 : FileEntry :=
  { name := "enterprise-attack.8.0.json".toList, content := "data80".toList
    mtime := 2, isFile := true }

/-- C1: whenever the cache directory holds at least one cached dataset file
and the registry query rejects, `cacheData` resolves to the dataset parsed
from the newest cached file — it neither rejects nor resolves `undefined`,
and it leaves the cache untouched.  The second conjunct instantiates this
on a directory holding versions 7.2 and 8.0: the 8.0 dataset is returned. -/
theorem claim1_network_fallback :
    (∀ (env : CacheEnv) (cache : List FileEntry) (e : FileEntry),
       e ∈ cache → e.isFile = true → matchesCachePattern e.name = true →
       (cache.map FileEntry.name).Nodup →
       env.registry = .error () →
       (∀ f ∈ cache, f.isFile = true → matchesCachePattern f.name = true →
          (env.parse f.content).isSome = true) →
       ∃ e2 m, getLatestCacheVersion cache = some e2 ∧ env.parse e2.content = some m ∧
         cacheDataM env cache = (.ok (some m), cache)) ∧
    cacheDataM envC1 [fe72, fe80] = (.ok (some sample80), [fe72, fe80]) := by
  constructor
  · intro env cache e hm hf hp hnd hreg hparse
    obtain ⟨e2, hlat, hmem2, hf2, hp2⟩ := getLatest_spec cache e hm hf hp
    have hread := readFileM_of_nodup cache e2 hnd hmem2
    obtain ⟨m, hpm⟩ := Option.isSome_iff_exists.mp (hparse e2 hmem2 hf2 hp2)
    refine ⟨e2, m, hlat, hpm, ?_⟩
    unfold cacheDataM
    rw [hlat, hreg]
    simp only [hread, hpm]
  · rfl

/-- C1 witness: the fallback theorem at the concrete failing environment. -/
theorem claim1_witness :
    ∃ e2 m, getLatestCacheVersion [fe72, fe80] = some e2 ∧
      envC1.parse e2.content = some m ∧
      cacheDataM envC1 [fe72, fe80] = (.ok (some m), [fe72, fe80]) :=
  claim1_network_fallback.1 envC1 [fe72, fe80] fe80 (by decide) (by decide)
    (by decide) (by decide) rfl (by decide)

/-! ### C8 — up-to-date cache is reused without any write -/

/-- C8: when the cache resolver finds a cached file and its extracted
version is not numerically older than the latest online version, `cacheData`
leaves the cache state — every entry's content and modification time —
unchanged, and a repeated call still leaves it unchanged. -/
theorem claim8_idempotent_reuse :
    ∀ (env : CacheEnv) (cache : List FileEntry) (e : FileEntry) (vs : List (List Char)),
      getLatestCacheVersion cache = some e →
      env.registry = .ok vs →
      ¬ vcmp (extractAttackVersion e.name) (onlineOf vs) < 0 →
      (cacheDataM env cache).2 = cache ∧
        (cacheDataM env ((cacheDataM env cache).2)).2 = cache := by
  intro env cache e vs hlat hreg hfresh
  have h1 : (cacheDataM env cache).2 = cache := by
    unfold cacheDataM
    rw [hlat, hreg]
    simp only
    rw [if_neg hfresh]
    cases hr : readFileM cache e.name with
    | none => simp only
    | some raw =>
      simp only
      cases hp : env.parse raw with
      | none => simp only [hr]
      | some m => simp only
  exact ⟨h1, by rw [h1, h1]⟩

def envC8 : CacheEnv :=
  { registry := .ok ["8.0".toList]
    download := fun _ => .ok []
    parse := fun c => if c = "data80".toList then some sample80 else none
    now := 11 }

/-- C8 witness: the reuse theorem at a concrete up-to-date cache. -/
theorem claim8_witness :
    (cacheDataM envC8 [fe80]).2 = [fe80] ∧
      (cacheDataM envC8 ((cacheDataM envC8 [fe80]).2)).2 = [fe80] :=
  claim8_idempotent_reuse envC8 [fe80] fe80 ["8.0".toList]
    (by decide) rfl (by decide)

/-! ### C2 — numeric (not lexical) version ordering, used by the orchestrator -/

theorem vcmpF_cons (f : Nat) (x y : Char) (xs ys : List Char) :
    vcmpF (f + 1) (x :: xs) (y :: ys) =
      if x.isDigit && y.isDigit then
        (if natOfDigits ((x :: xs).takeWhile Char.isDigit) <
            natOfDigits ((y :: ys).takeWhile Char.isDigit) then -1
         else if natOfDigits ((y :: ys).takeWhile Char.isDigit) <
            natOfDigits ((x :: xs).takeWhile Char.isDigit) then 1
         else vcmpF f ((x :: xs).dropWhile Char.isDigit) ((y :: ys).dropWhile Char.isDigit))
      else if x = y then vcmpF f xs ys
      else if x.val < y.val then -1 else 1 := rfl

/-- The environment of the first orchestrator scenario: cached `9.0`,
online versions `9.0` and `11.0`. -/
def envA : CacheEnv :=
  { registry := .ok ["9.0".toList, "11.0".toList]
    download := fun v => if v = "11.0".toList then .ok ("newdata".toList) else .ok []
    parse := fun c =>
      if c = "newdata".toList then some sample80
      else if c = "data90".toList then some sampleEmpty else none
    now := 42 }

def fe90 : FileEntry :=
  { name := "enterprise-attack.9.0.json".toList, content := "data90".toList
    mtime := 1, isFile := true }

/-- The environment of the second orchestrator scenario: cached `2.0`,
online version `1.12` only. -/
def envB : CacheEnv :=
  { registry := .ok ["1.12".toList]
    download := fun _ => .ok []
    parse := fun c => if c = "data20".toList then some sample80 else none
    now := 42 }

def fe20 : FileEntry :=
  { name := "enterprise-attack.2.0.json".toList, content := "data20".toList
    mtime := 3, isFile := true }

/-- C2: `versionSorter` ranks `11.0` above `9.0` and `2.0` above `1.12`
(both pairs rank the other way around lexically); in general a digit-run
compares by numeric value; and `cacheData` decides freshness with this same
ordering: with cached `9.0` against online `11.0` it downloads and persists
the `11.0` dataset, while with cached `2.0` against online `1.12` it reuses
the cached dataset and leaves the cache untouched. -/
theorem claim2_numeric_ordering :
    (0 < vcmp ("11.0".toList) ("9.0".toList)) ∧
    (0 < vcmp ("2.0".toList) ("1.12".toList)) ∧
    (∀ a b : List Char, a ≠ [] → b ≠ [] →
       a.all Char.isDigit = true → b.all Char.isDigit = true →
       (0 < vcmp a b ↔ natOfDigits b < natOfDigits a)) ∧
    (cacheDataM envA [fe90] =
       (.ok (some sample80),
        [fe90,
         { name := "enterprise-attack.11.0.json".toList, content := "newdata".toList
           mtime := 42, isFile := true }])) ∧
    (cacheDataM envB [fe20] = (.ok (some sample80), [fe20])) := by
  refine ⟨by decide, by decide, ?_, by rfl, by rfl⟩
  intro a b ha hb hda hdb
  obtain ⟨x, xs, rfl⟩ := List.exists_cons_of_ne_nil ha
  obtain ⟨y, ys, rfl⟩ := List.exists_cons_of_ne_nil hb
  have hax : ∀ c ∈ x :: xs, c.isDigit = true := List.all_eq_true.mp hda
  have hby : ∀ c ∈ y :: ys, c.isDigit = true := List.all_eq_true.mp hdb
  have hcond : (x.isDigit && y.isDigit) = true := by
    rw [hax x (List.mem_cons_self x xs), hby y (List.mem_cons_self y ys)]
    rfl
  have htwa : (x :: xs).takeWhile Char.isDigit = x :: xs :=
    List.takeWhile_eq_self_iff.mpr hax
  have htwb : (y :: ys).takeWhile Char.isDigit = y :: ys :=
    List.takeWhile_eq_self_iff.mpr hby
  have hdwa : (x :: xs).dropWhile Char.isDigit = [] :=
    List.dropWhile_eq_nil_iff.mpr hax
  have hdwb : (y :: ys).dropWhile Char.isDigit = [] :=
    List.dropWhile_eq_nil_iff.mpr hby
  show 0 < vcmpF ((x :: xs).length + 1) (x :: xs) (y :: ys) ↔ _
  rw [show (x :: xs).length + 1 = (xs.length + 1) + 1 from rfl, vcmpF_cons,
    if_pos hcond, htwa, htwb, hdwa, hdwb]
  by_cases h1 : natOfDigits (x :: xs) < natOfDigits (y :: ys)
  · rw [if_pos h1]
    exact iff_of_false (by decide) (by omega)
  · rw [if_neg h1]
    by_cases h2 : natOfDigits (y :: ys) < natOfDigits (x :: xs)
    · rw [if_pos h2]
      exact iff_of_true (by decide) h2
    · rw [if_neg h2]
      rw [show vcmpF (xs.length + 1) [] [] = 0 from rfl]
      exact iff_of_false (by decide) h2

/-- C2 witness: the general digit-run conjunct applied at `21` versus `3`. -/
theorem claim2_witness : 0 < vcmp ("21".toList) ("3".toList) := by
  have h := claim2_numeric_ordering.2.2.1 ("21".toList) ("3".toList)
    (by decide) (by decide) (by decide) (by decide)
  exact h.mpr (by decide)


end VsAttack
